/-
Verification of the retrieval core of the `ai-safety-kb` knowledge base.

This file gives a shallow embedding, in Lean 4, of the Python modules
`safety_kb/utils/chunking.py`, `safety_kb/utils/embedding.py`,
`safety_kb/utils/text_cleaning.py`, `safety_kb/storage.py`
(`fetch_candidate_chunks`), `safety_kb/retrieval.py` (`search`'s scoring and
ranking step), `safety_kb/indexing.py` (`ingest_documents`) and
`safety_kb/config.py`, together with theorems about the embedded definitions.

Modelling conventions:
- Python `float` arithmetic is modelled by exact arithmetic: `ℚ` where the
  code only compares, adds and multiplies, `ℝ` where `math.sqrt` appears.
- Python `str.split()` / regex text cleaning are modelled by structurally
  recursive scanners over `String.data`.
- Python's stable `list.sort(key=..., reverse=True)` is modelled by
  Mathlib's `List.insertionSort` with the descending-on-key relation
  (insertion sort is stable and any two stable sorts agree).
- Python dicts are modelled by association lists looked up by first match.
- SQL `NULL` semantics: comparing a missing `published_at` is false.
-/
import Mathlib

namespace SafetyKB

/-! ## Python string helpers -/

/-- The whitespace characters recognised by Python's `str.split()` / `\s`
(restricted to the ASCII range, which is all the repository uses). -/
def wsChar (c : Char) : Bool :=
  c = ' ' ∨ c = '\t' ∨ c = '\n' ∨ c = '\r' ∨ c = '\x0b' ∨ c = '\x0c'

/-- Accumulating scanner behind `pySplit`: splits a character list on runs of
whitespace, discarding empty words, like Python's `str.split()` with no
arguments. `cur` holds the current word, reversed. -/
def splitWordsAux : List Char → List Char → List (List Char)
  | cur, [] => if cur = [] then [] else [cur.reverse]
  | cur, c :: cs =>
    if wsChar c then
      if cur = [] then splitWordsAux [] cs else cur.reverse :: splitWordsAux [] cs
    else splitWordsAux (c :: cur) cs

/-- Python `text.split()`: whitespace-separated words, no empty words. -/
def pySplit (s : String) : List String :=
  (splitWordsAux [] s.data).map String.mk

/-- Python truthiness of an `Optional[str]`: `None` and `""` are falsy. -/
def strTruthy : Option String → Bool
  | none => false
  | some "" => false
  | some _ => true

/-- Python `a or b` on an `Optional[str]` with a string default. -/
def pyOrStr (o : Option String) (d : String) : String :=
  match o with
  | none => d
  | some "" => d
  | some v => v

/-! ## Configuration (`config.py`) -/

/-- Embedding of `Settings` (config.py lines 10-29) with its field defaults.
Numeric fields are naturals: the repository only ever configures
non-negative values. -/
structure Settings where
  database_url : String := "sqlite+aiosqlite:///./safety_kb.db"
  embedding_provider : String := "fake"
  embedding_dim : ℕ := 1536
  embedding_model_name : String := "text-embedding-3-large"
  embedding_api_base : Option String := none
  embedding_api_key : Option String := none
  chunk_size : ℕ := 512
  chunk_overlap : ℕ := 80
  fetch_batch_size : ℕ := 50
  max_candidate_chunks : ℕ := 400
  log_level : String := "INFO"
deriving DecidableEq

/-- The default `Settings()` instance. -/
def default_settings : Settings := {}

/-- The allowed set in `Settings.validate_provider` (config.py line 34). -/
def allowed_providers : List String :=
  ["fake", "openai", "sentence_transformer", "custom"]

/-- Embedding of the `validate_provider` pydantic field validator
(config.py lines 31-37): rejects any provider name outside the allowed set
at `Settings` construction time. -/
def validate_provider (value : String) : Except String String :=
  if value ∈ allowed_providers then Except.ok value
  else Except.error ("Unsupported embedding_provider " ++ value)

/-! ## Chunking (`utils/chunking.py`) -/

/-- Python's `explicit or settings_default` idiom on an `int | None`
argument (chunking.py lines 19-20): `None` and `0` are falsy and fall back
to the configured default. -/
def resolveArg (explicit : Option ℕ) (default : ℕ) : ℕ :=
  match explicit with
  | none => default
  | some 0 => default
  | some n => n

/-- The `while start < len(words)` loop of `chunk_text`
(chunking.py lines 26-33).  The step is `stepPred + 1`, which is always the
source's `max(chunk_size - chunk_overlap, 1) ≥ 1`; `fuel` bounds the number
of iterations and is passed as `words.length`, which is sufficient because
each iteration advances `start` by at least one (see `chunkLoop_getElem`). -/
def chunkLoop (words : List String) (size stepPred : ℕ) : ℕ → ℕ → List String
  | _, 0 => []
  | start, fuel + 1 =>
    if start < words.length then
      " ".intercalate ((words.drop start).take size) :: chunkLoop words size stepPred (start + stepPred + 1) fuel
    else []

/-- Embedding of `chunk_text` (chunking.py lines 12-34).  The `settings`
parameter models the process-global `get_settings()` used for falsy
arguments. -/
def chunk_text (settings : Settings) (text : String)
    (chunk_size chunk_overlap : Option ℕ) : List String :=
  let size := resolveArg chunk_size settings.chunk_size
  let overlap := resolveArg chunk_overlap settings.chunk_overlap
  let words := pySplit text
  if words = [] then []
  else
    let step := max (size - overlap) 1
    chunkLoop words size (step - 1) 0 words.length

/-! ## Text cleaning (`utils/text_cleaning.py`) -/

/-- Scanner behind `normalize_whitespace`: the regex substitution
`\s+ → " "`.  The flag records whether the previous character was part of a
whitespace run already replaced. -/
def collapseWSAux : Bool → List Char → List Char
  | _, [] => []
  | inWs, c :: cs =>
    if wsChar c then
      if inWs then collapseWSAux true cs else ' ' :: collapseWSAux true cs
    else c :: collapseWSAux false cs

/-- Python `str.strip()` on a character list. -/
def pyStrip (l : List Char) : List Char :=
  ((l.dropWhile wsChar).reverse.dropWhile wsChar).reverse

/-- Embedding of `normalize_whitespace` (text_cleaning.py lines 12-14):
collapse whitespace runs to single spaces, then strip the ends. -/
def normalize_whitespace (value : String) : String :=
  String.mk (pyStrip (collapseWSAux false value.data))

/-- Scanner behind `strip_html`: `re.sub(r"<[^>]+>", " ", value)`.  A match
starts at `<`, spans at least one non-`>` character, and ends at the first
following `>`; unmatched `<` is kept literally.  `fuel` bounds the scan and
is passed as the input length (every step consumes at least one character). -/
def stripHtmlAux : ℕ → List Char → List Char
  | 0, _ => []
  | _, [] => []
  | fuel + 1, c :: cs =>
    if c = '<' then
      match cs.dropWhile (fun x => x ≠ '>') with
      | [] => c :: stripHtmlAux fuel cs
      | _ :: rest =>
        if cs.takeWhile (fun x => x ≠ '>') = [] then c :: stripHtmlAux fuel cs
        else ' ' :: stripHtmlAux fuel rest
    else c :: stripHtmlAux fuel cs

/-- Embedding of `strip_html` (text_cleaning.py lines 17-19). -/
def strip_html (value : String) : String :=
  String.mk (stripHtmlAux value.data.length value.data)

/-- Embedding of `clean_text` (text_cleaning.py lines 22-27).  The stdlib
`html.unescape` is an external collaborator and is passed in as `U`;
theorems only ever assume it is the identity on entity-free input. -/
def clean_text (U : String → String) (value : String) : String :=
  normalize_whitespace (strip_html (U value))

/-! ## Data model (`models.py`, `schemas.py`) -/

/-- A Python `datetime`, field by field.  Ordering is through `key`. -/
structure PyDateTime where
  year : ℤ
  month : ℕ
  day : ℕ
  hour : ℕ
  minute : ℕ
  second : ℕ
deriving DecidableEq

/-- Mixed-radix encoding of a `PyDateTime`; for in-range field values the
encoding is strictly monotone in lexicographic field order, so comparing
keys models comparing datetimes. -/
def PyDateTime.key (t : PyDateTime) : ℤ :=
  ((((t.year * 13 + t.month) * 32 + t.day) * 24 + t.hour) * 60 + t.minute) * 60 + t.second

/-- Association-list model of a Python `dict` with string keys; lookup is by
first match. -/
def dictGet (d : List (String × String)) (k : String) : Option String :=
  match d.find? (fun kv => kv.1 = k) with
  | none => none
  | some kv => some kv.2

/-- Embedding of the pydantic `Document` model (models.py lines 11-33).
Metadata values are modelled as strings. -/
structure Document where
  id : String
  external_id : Option String := none
  source : String
  source_id : String
  title : String
  url : Option String := none
  authors : List String := []
  published_at : Option PyDateTime := none
  added_at : Option PyDateTime := none
  abstract : Option String := none
  text : Option String := none
  raw_uri : Option String := none
  checksum : Option String := none
  topics : List String := []
  risk_areas : List String := []
  tags : List String := []
  metadata : List (String × String) := []
  version : ℤ := 1
deriving DecidableEq

/-- Embedding of the pydantic `Chunk` model (models.py lines 36-48).
Embedding vectors are exact rationals. -/
structure Chunk where
  id : String
  doc_id : String
  chunk_index : ℕ
  text : String
  embedding : Option (List ℚ) := none
  topics : List String := []
  risk_areas : List String := []
  metadata : List (String × String) := []
deriving DecidableEq

/-- Embedding of a `ChunkORM` row (schemas.py lines 129-146): a `Chunk`
plus the database-managed `created_at` timestamp used by the candidate
query's `ORDER BY`. -/
structure ChunkRow where
  id : String
  doc_id : String
  chunk_index : ℕ
  text : String
  embedding : Option (List ℚ) := none
  topics : List String := []
  risk_areas : List String := []
  metadata : List (String × String) := []
  created_at : ℤ := 0
deriving DecidableEq

/-- `ChunkORM.to_chunk` (schemas.py lines 148-158). -/
def ChunkRow.to_chunk (c : ChunkRow) : Chunk :=
  { id := c.id, doc_id := c.doc_id, chunk_index := c.chunk_index,
    text := c.text, embedding := c.embedding, topics := c.topics,
    risk_areas := c.risk_areas, metadata := c.metadata }

/-- Embedding of `SearchFilters` (models.py lines 79-89). -/
structure SearchFilters where
  topics : Option (List String) := none
  sources : Option (List String) := none
  risk_areas : Option (List String) := none
  year_min : Option ℤ := none
  year_max : Option ℤ := none
  metadata : List (String × String) := []
deriving DecidableEq

/-- `SearchFilters()` with every constraint absent. -/
def empty_filters : SearchFilters := {}

/-! ## Chunk construction (`utils/chunking.py` `build_chunks`) -/

/-- Embedding of `build_chunks` (chunking.py lines 37-63).  `U` is the
stdlib `html.unescape` collaborator of `clean_text`.  Python's
`if not document.text` catches both `None` and `""`.  The merged chunk
metadata `{"source": document.source, **document.metadata}` is an
association list in which the parent's entries shadow the injected
`source` key, matching dict-merge override semantics under first-match
lookup. -/
def build_chunks (U : String → String) (settings : Settings)
    (document : Document) : List Chunk :=
  match document.text with
  | none => []
  | some t =>
    if t = "" then []
    else
      let normalized := clean_text U t
      let body_chunks := chunk_text settings normalized
        (some settings.chunk_size) (some settings.chunk_overlap)
      body_chunks.enum.map (fun p =>
        { id := document.id ++ "_" ++ toString p.1,
          doc_id := document.id,
          chunk_index := p.1,
          text := p.2,
          embedding := none,
          topics := document.topics,
          risk_areas := document.risk_areas,
          metadata := document.metadata ++ [("source", document.source)] })

/-! ## Embedding providers (`utils/embedding.py`) -/

/-- The concrete provider classes selectable in `get_embedding_provider`. -/
inductive ProviderKind
  | fake
  | openai
  | sentence_transformer
deriving DecidableEq

/-- Embedding of `get_embedding_provider` (embedding.py lines 84-105),
returning the selected provider or the selection-time error.
`st_installed` models whether the optional `sentence_transformers`
dependency imported (its constructor raises otherwise, lines 70-74).  The
process-wide instance cache (line 81) is not modelled: it only memoises the
result and never changes which branch is taken. -/
def get_embedding_provider (st_installed : Bool) (s : Settings) :
    Except String ProviderKind :=
  if s.embedding_provider = "openai" then Except.ok ProviderKind.openai
  else if s.embedding_provider = "sentence_transformer" then
    (if st_installed then Except.ok ProviderKind.sentence_transformer
     else Except.error "sentence-transformers is not installed")
  else if s.embedding_provider = "custom" then
    Except.error "Custom embedding provider not configured"
  else Except.ok ProviderKind.fake

/-- The batched HTTP request `OpenAIEmbeddingProvider.embed` would issue. -/
structure EmbedRequest where
  url : String
  model : String
  input : List String
deriving DecidableEq

/-- Embedding of the pre-network part of `OpenAIEmbeddingProvider.embed`
(embedding.py lines 48-61): raises when no API key is configured, otherwise
builds the single batched request.  The network call itself and the
response handling are external I/O and are not modelled. -/
def openai_embed (s : Settings) (texts : List String) :
    Except String EmbedRequest :=
  if strTruthy s.embedding_api_key = false then
    Except.error "OpenAI embeddings require SAFETY_KB_EMBEDDING_API_KEY"
  else
    Except.ok { url := pyOrStr s.embedding_api_base "https://api.openai.com/v1/embeddings",
                model := s.embedding_model_name,
                input := texts }

/-! ## Cosine similarity and the fake provider, over exact reals -/

/-- `sum(a * b for a, b in zip(vec_a, vec_b))`: the truncating-zip dot
product of `cosine_similarity` (embedding.py line 112). -/
def dotL (a b : List ℝ) : ℝ :=
  ((a.zip b).map (fun p => p.1 * p.2)).sum

/-- `sum(v * v for v in values)`: sum of squares. -/
def sumSq (v : List ℝ) : ℝ :=
  ((v.map (fun x => x * x)).sum)

/-- `math.sqrt(sum(v * v for v in vec)) or 1.0` (embedding.py lines 38,
113-114): the Euclidean norm with a zero result replaced by `1.0` by
Python's falsy-`or`. -/
noncomputable def pyNormOr1 (v : List ℝ) : ℝ :=
  if Real.sqrt (sumSq v) = 0 then 1 else Real.sqrt (sumSq v)

/-- Embedding of `cosine_similarity` (embedding.py lines 108-115) over
exact reals.  `if not vec_a or not vec_b` is the empty-list check. -/
noncomputable def cosine_similarity (vec_a vec_b : List ℝ) : ℝ :=
  if vec_a = [] ∨ vec_b = [] then 0
  else dotL vec_a vec_b / (pyNormOr1 vec_a * pyNormOr1 vec_b)

/-- Embedding of `FakeEmbeddingProvider._vector` (embedding.py lines
34-39).  `rng text` abstracts the pure pseudo-random stream obtained by
seeding `random.Random` with `sha256(text) mod 2^32`: `rng text i` is the
`i`-th `rng.random()` draw for that text, a function of the text alone. -/
noncomputable def fake_vector (rng : String → ℕ → ℝ) (dim : ℕ)
    (text : String) : List ℝ :=
  let values := (List.range dim).map (rng text)
  let norm := pyNormOr1 values
  values.map (fun v => v / norm)

/-- Embedding of `FakeEmbeddingProvider.embed` (embedding.py lines 41-42):
one vector per input text, in order. -/
noncomputable def fake_embed (rng : String → ℕ → ℝ) (dim : ℕ)
    (texts : List String) : List (List ℝ) :=
  texts.map (fake_vector rng dim)

/-! ## Stable descending sort

Python's `list.sort(key=..., reverse=True)` is a stable sort: elements are
ordered by descending key and equal-key elements keep their original
relative order.  `List.insertionSort` with the relation
`key y ≤ key x` computes exactly that arrangement. -/

/-- Stable sort by descending key, the model of
`scored.sort(key=lambda item: item[0], reverse=True)` (retrieval.py line
46) and of the SQL `ORDER BY chunks.created_at DESC` (storage.py line
133). -/
def pySortByDesc {α β : Type} [LinearOrder β] (key : α → β) (l : List α) :
    List α :=
  l.insertionSort (fun x y => key y ≤ key x)

/-! ## Candidate fetch (`storage.py` `fetch_candidate_chunks`) -/

/-- Python truthiness of an `Optional[List[str]]` filter field. -/
def listTruthy : Option (List String) → Bool
  | none => false
  | some [] => false
  | some (_ :: _) => true

/-- Python truthiness of an `Optional[int]` filter field. -/
def intTruthy : Option ℤ → Bool
  | none => false
  | some v => decide (v ≠ 0)

/-- The label-set filter `column.contains(filter_list)` (storage.py lines
138, 142), modelled as: every requested label occurs in the row's label
list.  No claim exercises this branch. -/
def ormContains (row filt : List String) : Bool :=
  filt.all (fun x => decide (x ∈ row))

/-- SQL `column >= value` under `NULL` semantics: false when the row value
is missing. -/
def dtGe (a : Option PyDateTime) (b : PyDateTime) : Bool :=
  match a with
  | none => false
  | some t => decide (b.key ≤ t.key)

/-- SQL `column <= value` under `NULL` semantics. -/
def dtLe (a : Option PyDateTime) (b : PyDateTime) : Bool :=
  match a with
  | none => false
  | some t => decide (t.key ≤ b.key)

/-- The database-level `WHERE` conditions of `fetch_candidate_chunks`
(storage.py lines 137-152): each filter applies only when its field is
truthy.  Note there is no condition on `embedding`. -/
def db_level_match (filters : SearchFilters) (c : ChunkRow) (d : Document) :
    Bool :=
  (!listTruthy filters.topics || ormContains c.topics (filters.topics.getD [])) &&
  (!listTruthy filters.sources || decide (d.source ∈ filters.sources.getD [])) &&
  (!listTruthy filters.risk_areas || ormContains c.risk_areas (filters.risk_areas.getD [])) &&
  (!intTruthy filters.year_min ||
    dtGe d.published_at ⟨filters.year_min.getD 0, 1, 1, 0, 0, 0⟩) &&
  (!intTruthy filters.year_max ||
    dtLe d.published_at ⟨filters.year_max.getD 0, 12, 31, 23, 59, 59⟩)

/-- The application-level metadata equality check of
`fetch_candidate_chunks` (storage.py lines 159-166): every requested
key/value pair must match the document's metadata. -/
def metadata_match (filters : SearchFilters) (d : Document) : Bool :=
  filters.metadata.all (fun kv => decide (dictGet d.metadata kv.1 = some kv.2))

/-- Embedding of `SQLAlchemyStore.fetch_candidate_chunks` (storage.py lines
125-168) over a store state given as chunk rows and document rows:
join on `doc_id`, apply the `WHERE` filters, `ORDER BY created_at DESC`,
`LIMIT`, convert the rows, then apply the metadata filter in the
application layer. -/
def fetch_candidate_chunks (chunks : List ChunkRow) (docs : List Document)
    (filters : SearchFilters) (lim : ℕ) : List (Chunk × Document) :=
  let joined := chunks.flatMap (fun c =>
    (docs.filter (fun d => d.id = c.doc_id)).map (fun d => (c, d)))
  let matched := joined.filter (fun p => db_level_match filters p.1 p.2)
  let ordered := pySortByDesc (fun p => p.1.created_at) matched
  let limited := ordered.take lim
  (limited.map (fun p => (p.1.to_chunk, p.2))).filter
    (fun p => metadata_match filters p.2)

/-! ## Scoring and ranking (`retrieval.py` `search`) -/

/-- The filtering part of `search`'s scoring loop abstracted over the score
values: keep a candidate unless its score is non-positive
(`if score <= 0: continue`, retrieval.py lines 42-44). -/
def scored_of {α β : Type} [LinearOrder β] [Zero β] (score : α → β)
    (cands : List α) : List (β × α) :=
  cands.filterMap (fun c =>
    let s := score c
    if s ≤ 0 then none else some (s, c))

/-- `scored.sort(key=lambda item: item[0], reverse=True)` followed by
`scored[:k]` (retrieval.py lines 46-47). -/
def rank_scored {α β : Type} [LinearOrder β] (scored : List (β × α))
    (k : ℕ) : List (β × α) :=
  (pySortByDesc Prod.fst scored).take k

/-- The complete ranking step of `search` (retrieval.py lines 37-47) over
an abstract per-candidate score. -/
def rank_candidates {α β : Type} [LinearOrder β] [Zero β] (score : α → β)
    (cands : List α) (k : ℕ) : List (β × α) :=
  rank_scored (scored_of score cands) k

/-- The scoring loop of `search` on actual candidates (retrieval.py lines
37-44): candidates whose chunk has a falsy embedding (`None` or `[]`) are
skipped before scoring, then non-positive cosine scores are dropped. -/
noncomputable def search_scored (query_vector : List ℚ)
    (candidates : List (Chunk × Document)) : List (ℝ × Chunk × Document) :=
  candidates.filterMap (fun cd =>
    match cd.1.embedding with
    | none => none
    | some [] => none
    | some e =>
      let s := cosine_similarity (query_vector.map (fun q => (q : ℝ)))
        (e.map (fun q => (q : ℝ)))
      if s ≤ 0 then none else some (s, cd.1, cd.2))

/-- The ranked `top_hits` of `search` (retrieval.py lines 46-47). -/
noncomputable def search_rank (query_vector : List ℚ)
    (candidates : List (Chunk × Document)) (k : ℕ) :
    List (ℝ × Chunk × Document) :=
  rank_scored (search_scored query_vector candidates) k

/-! ## Ingestion (`indexing.py` `ingest_documents`) -/

/-- One iteration of the `ingest_documents` loop (indexing.py lines 70-80)
acting on the accumulated `(processed, upserted)` state.  `E` abstracts
`provider.embed` as a pure per-text embedding (the deterministic provider
is one), `now` stands for `datetime.now(timezone.utc)`. -/
def ingest_step (U : String → String) (E : String → List ℚ)
    (now : PyDateTime) (settings : Settings)
    (acc : ℕ × List (Document × List Chunk)) (document : Document) :
    ℕ × List (Document × List Chunk) :=
  let document := if document.added_at = none
    then { document with added_at := some now } else document
  let chunks := build_chunks U settings document
  if chunks = [] then acc
  else
    let embeddings := (chunks.map (fun c => c.text)).map E
    let chunks := (chunks.zip embeddings).map
      (fun p => { p.1 with embedding := some p.2 })
    (acc.1 + 1, acc.2 ++ [(document, chunks)])

/-- Embedding of `ingest_documents` (indexing.py lines 60-81): returns the
`processed` count and the sequence of `upsert_document` calls made. -/
def ingest_documents (U : String → String) (E : String → List ℚ)
    (now : PyDateTime) (settings : Settings) (documents : List Document) :
    ℕ × List (Document × List Chunk) :=
  documents.foldl (ingest_step U E now settings) (0, [])

/-! ## Properties of the stable descending sort -/

theorem pySortByDesc_perm {α β : Type} [LinearOrder β] (key : α → β)
    (l : List α) : (pySortByDesc key l).Perm l :=
  List.perm_insertionSort _ l

theorem pySortByDesc_sorted {α β : Type} [LinearOrder β] (key : α → β)
    (l : List α) :
    List.Sorted (fun x y => key y ≤ key x) (pySortByDesc key l) := by
  haveI : IsTotal α (fun x y => key y ≤ key x) :=
    ⟨fun a b => le_total (key b) (key a)⟩
  haveI : IsTrans α (fun x y => key y ≤ key x) :=
    ⟨fun _ _ _ h1 h2 => le_trans h2 h1⟩
  exact List.sorted_insertionSort _ l

/-- Stability of the descending sort: for each key value, the elements
carrying that key appear in the sorted list exactly in their original
order. -/
theorem pySortByDesc_filter_key {α β : Type} [LinearOrder β] (key : α → β)
    (l : List α) (q : β) :
    (pySortByDesc key l).filter (fun x => key x = q) =
      l.filter (fun x => key x = q) := by
  have hpw : (l.filter (fun x => key x = q)).Pairwise
      (fun x y => key y ≤ key x) := by
    refine List.pairwise_iff_forall_sublist.mpr ?_
    intro a b hab
    have ha := hab.subset (show a ∈ [a, b] by simp)
    have hb := hab.subset (show b ∈ [a, b] by simp)
    have ha2 := (List.mem_filter.mp ha).2
    have hb2 := (List.mem_filter.mp hb).2
    simp only [decide_eq_true_eq] at ha2 hb2
    rw [ha2, hb2]
  have hsub : (l.filter (fun x => key x = q)).Sublist (pySortByDesc key l) :=
    List.sublist_insertionSort hpw (List.filter_sublist l)
  have hsub2 : ((l.filter (fun x => key x = q)).filter (fun x => key x = q)).Sublist
      ((pySortByDesc key l).filter (fun x => key x = q)) :=
    List.Sublist.filter _ hsub
  rw [List.filter_filter] at hsub2
  simp only [Bool.and_self] at hsub2
  have hperm : ((pySortByDesc key l).filter (fun x => key x = q)).Perm
      (l.filter (fun x => key x = q)) :=
    List.Perm.filter _ (pySortByDesc_perm key l)
  exact (hsub2.eq_of_length hperm.length_eq.symm).symm

/-- The scored list is the positive-scored candidates, in original order,
paired with their scores. -/
theorem scored_of_eq_filter {α β : Type} [LinearOrder β] [Zero β]
    (score : α → β) (cands : List α) :
    scored_of score cands =
      (cands.filter (fun c => decide (¬ score c ≤ 0))).map
        (fun c => (score c, c)) := by
  induction cands with
  | nil => rfl
  | cons c cs ih =>
    simp only [scored_of, List.filterMap_cons, List.filter_cons] at ih ⊢
    by_cases h : score c ≤ 0
    · simpa [h] using ih
    · simpa [h] using ih

/-- The concrete scores of the worked ranking example in the spec. -/
def example_scores : List ℚ := [9/10, 9/10, 2/5, -(1/10), 0]

/-- The worked example's score assignment on candidates `0..4`. -/
def example_score (i : ℕ) : ℚ := example_scores.getD i 0

/-- C1: for every query vector, candidate sequence and `k`, the ranking
step of `search` keeps exactly the candidates with positive score in their
original order, stable-sorts them by descending score (original order is
the tie-break) and returns the first `k`; on the worked example with
scores `[0.9, 0.9, 0.4, -0.1, 0]` and `k = 3` it returns the two
`0.9`-scored candidates in original relative order followed by the
`0.4`-scored one. -/
theorem search_ranking_spec :
    (∀ (α : Type) (score : α → ℚ) (cands : List α) (k : ℕ),
      scored_of score cands =
        (cands.filter (fun c => decide (¬ score c ≤ 0))).map
          (fun c => (score c, c)) ∧
      (pySortByDesc Prod.fst (scored_of score cands)).Perm
        (scored_of score cands) ∧
      List.Sorted (fun x y : ℚ × α => y.1 ≤ x.1)
        (pySortByDesc Prod.fst (scored_of score cands)) ∧
      (∀ q : ℚ,
        (pySortByDesc Prod.fst (scored_of score cands)).filter
            (fun x => x.1 = q) =
          (scored_of score cands).filter (fun x => x.1 = q)) ∧
      rank_candidates score cands k =
        (pySortByDesc Prod.fst (scored_of score cands)).take k) ∧
    rank_candidates example_score [0, 1, 2, 3, 4] 3 =
      [(9/10, 0), (9/10, 1), (2/5, 2)] := by
  constructor
  · intro α score cands k
    exact ⟨scored_of_eq_filter score cands,
      pySortByDesc_perm _ _,
      pySortByDesc_sorted _ _,
      fun q => pySortByDesc_filter_key Prod.fst (scored_of score cands) q,
      rfl⟩
  · norm_num [rank_candidates, rank_scored, scored_of, pySortByDesc,
      example_score, example_scores, List.insertionSort, List.orderedInsert,
      List.filterMap]

/-! ## Argument defaulting in `chunk_text` (claim C10) -/

theorem resolveArg_some_zero (d : ℕ) : resolveArg (some 0) d = d := rfl

theorem resolveArg_none (d : ℕ) : resolveArg none d = d := rfl

theorem resolveArg_self (d : ℕ) : resolveArg (some d) d = d := by
  cases d <;> rfl

/-- C10: a `chunk_size` or `chunk_overlap` argument of `0` (or `None`) is
falsy in Python and silently replaced by the configured default, so
`chunk_text(text, S, 0)` always equals
`chunk_text(text, S, settings.chunk_overlap)`. -/
theorem chunk_text_zero_arg_defaults (settings : Settings) (text : String)
    (S : ℕ) (o : Option ℕ) :
    chunk_text settings text (some 0) o = chunk_text settings text none o ∧
    chunk_text settings text (some S) (some 0) =
      chunk_text settings text (some S) none ∧
    chunk_text settings text (some S) (some 0) =
      chunk_text settings text (some S) (some settings.chunk_overlap) :=
  ⟨rfl, rfl, by
    simp only [chunk_text, resolveArg_some_zero, resolveArg_self]⟩

/-! ## The chunk windows of `chunk_text` (claim C4) -/

/-- Element-wise description of the `while` loop of `chunk_text`: provided
the fuel covers the remaining words, the `i`-th produced chunk is the
window of `size` words starting at word offset `start + i * step` (with
`step = stepPred + 1`), and there is no `i`-th chunk once that offset runs
past the end. -/
theorem chunkLoop_getElem (words : List String) (size p : ℕ) :
    ∀ (fuel start i : ℕ), words.length - start ≤ fuel →
      (chunkLoop words size p start fuel)[i]? =
        if start + i * (p + 1) < words.length then
          some (" ".intercalate ((words.drop (start + i * (p + 1))).take size))
        else none := by
  intro fuel
  induction fuel with
  | zero =>
    intro start i h
    have hle : words.length ≤ start := by omega
    have hcond : ¬ start + i * (p + 1) < words.length := by omega
    simp [chunkLoop, hcond]
  | succ fuel ih =>
    intro start i h
    by_cases hlt : start < words.length
    · cases i with
      | zero =>
        simp [chunkLoop, hlt]
      | succ i =>
        have hrec := ih (start + p + 1) i (by omega)
        have harith : start + p + 1 + i * (p + 1) = start + (i + 1) * (p + 1) := by
          ring
        rw [harith] at hrec
        simp only [chunkLoop, if_pos hlt, List.getElem?_cons_succ]
        exact hrec
    · have hcond : ¬ start + i * (p + 1) < words.length := by omega
      simp [chunkLoop, hlt, hcond]

/-- C4: for positive `S` and `O` with `O < S` and a non-empty word list,
`chunk_text` produces exactly the windows that start at word offset `0`
and advance by `step = max(S - O, 1)` while the offset is below the word
count; the `i`-th chunk is the up-to-`S`-word window at offset `i * step`,
joined by single spaces (so the final window may be shorter than `S`). -/
theorem chunk_text_windows (settings : Settings) (text : String)
    (S O i : ℕ) (hS : 0 < S) (hO : 0 < O) (hOS : O < S)
    (hn : 0 < (pySplit text).length) :
    (chunk_text settings text (some S) (some O))[i]? =
      if i * max (S - O) 1 < (pySplit text).length then
        some (" ".intercalate
          (((pySplit text).drop (i * max (S - O) 1)).take S))
      else none := by
  have hSr : resolveArg (some S) settings.chunk_size = S := by
    cases S with
    | zero => omega
    | succ n => rfl
  have hOr : resolveArg (some O) settings.chunk_overlap = O := by
    cases O with
    | zero => omega
    | succ n => rfl
  have hwords : ¬ pySplit text = [] := by
    intro hempty
    rw [hempty] at hn
    simp at hn
  have hstep : max (S - O) 1 - 1 + 1 = max (S - O) 1 := by omega
  have hmain := chunkLoop_getElem (pySplit text) S (max (S - O) 1 - 1)
    (pySplit text).length 0 i (by omega)
  rw [hstep] at hmain
  simp only [Nat.zero_add] at hmain
  simp only [chunk_text, hSr, hOr, if_neg hwords]
  exact hmain

/-- Witness for C4 on the text `"a b c d e"` with `S = 2`, `O = 1`,
window index `1`. -/
theorem chunk_text_windows_witness :
    0 < (pySplit "a b c d e").length ∧
    (chunk_text default_settings "a b c d e" (some 2) (some 1))[1]? =
      (if 1 * max (2 - 1) 1 < (pySplit "a b c d e").length then
        some (" ".intercalate
          (((pySplit "a b c d e").drop (1 * max (2 - 1) 1)).take 2))
      else none) :=
  ⟨by decide, chunk_text_windows default_settings "a b c d e" 2 1 1
    (by decide) (by decide) (by decide) (by decide)⟩

/-! ## Claim C2: where the embedding filter actually lives -/

/-- A stored chunk row with no embedding recorded. -/
def no_embedding_chunk : ChunkRow :=
  { id := "d1_0", doc_id := "d1", chunk_index := 0,
    text := "alignment background", embedding := none, created_at := 5 }

/-- The parent document row of `no_embedding_chunk`. -/
def example_document : Document :=
  { id := "d1", source := "web", source_id := "src-web", title := "Example" }

/-- C2 as stated is false: `fetch_candidate_chunks` applies no embedding
condition, so a store holding a single chunk without an embedding returns
that pair even though its chunk has no embedding recorded. -/
theorem fetch_returns_unembedded_counterexample :
    fetch_candidate_chunks [no_embedding_chunk] [example_document]
        empty_filters 10 =
      [(no_embedding_chunk.to_chunk, example_document)] ∧
    no_embedding_chunk.embedding = none :=
  ⟨rfl, rfl⟩

/-- C2 amended: the exclusion of embedding-less chunks happens in the
scoring loop of `search`, not in `fetch_candidate_chunks`: every scored
candidate, and hence every ranked candidate, has an embedding recorded on
its chunk. -/
theorem search_excludes_unembedded :
    ∀ (qv : List ℚ) (cands : List (Chunk × Document)) (k : ℕ),
      ((search_scored qv cands).all
        (fun t => t.2.1.embedding.isSome)) = true ∧
      ((search_rank qv cands k).all
        (fun t => t.2.1.embedding.isSome)) = true := by
  intro qv cands k
  have hs : ∀ t ∈ search_scored qv cands, t.2.1.embedding.isSome = true := by
    intro t ht
    rcases List.mem_filterMap.mp ht with ⟨cd, _, heq⟩
    rcases hemb : cd.1.embedding with _ | e
    · rw [hemb] at heq
      simp at heq
    · cases e with
      | nil =>
        rw [hemb] at heq
        simp at heq
      | cons x xs =>
        rw [hemb] at heq
        dsimp only at heq
        split at heq
        · exact absurd heq (by simp)
        · rw [Option.some.injEq] at heq
          rw [← heq]
          simp [hemb]
  refine ⟨List.all_eq_true.mpr hs, List.all_eq_true.mpr ?_⟩
  intro t ht
  have hmem : t ∈ search_scored qv cands := by
    have h1 : t ∈ pySortByDesc Prod.fst (search_scored qv cands) :=
      List.mem_of_mem_take ht
    exact (pySortByDesc_perm _ _).mem_iff.mp h1
  exact hs t hmem

/-! ## Claim C3: when provider selection fails -/

/-- A validated configuration naming the remote provider with no
credential. -/
def missing_key_settings : Settings :=
  { embedding_provider := "openai", embedding_api_key := none }

/-- A validated configuration naming the unconfigured `custom` provider. -/
def custom_settings : Settings :=
  { embedding_provider := "custom" }

/-- C3 as stated is false: with the remote provider configured and no
credential, the provider name passes validation, selection succeeds, and
it is the first `embed` call that raises. -/
theorem provider_selection_counterexample :
    validate_provider missing_key_settings.embedding_provider =
      Except.ok "openai" ∧
    missing_key_settings.embedding_api_key = none ∧
    get_embedding_provider true missing_key_settings =
      Except.ok ProviderKind.openai ∧
    openai_embed missing_key_settings ["hello"] =
      Except.error "OpenAI embeddings require SAFETY_KB_EMBEDDING_API_KEY" :=
  ⟨rfl, rfl, rfl, rfl⟩

/-- C3 amended: among validated provider names, selection fails fast
exactly for `custom` (and for `sentence_transformer` when the optional
library is missing); unsupported names are rejected even earlier, by the
`Settings` validator; a missing remote credential raises at the first
`embed` call, not at selection. -/
theorem provider_failure_stages :
    (∀ v : String,
      (validate_provider v = Except.ok v ↔ v ∈ allowed_providers)) ∧
    (∀ (st : Bool) (s : Settings), s.embedding_provider ∈ allowed_providers →
      ((∃ e, get_embedding_provider st s = Except.error e) ↔
        (s.embedding_provider = "custom" ∨
          (s.embedding_provider = "sentence_transformer" ∧ st = false)))) ∧
    (∀ (s : Settings) (texts : List String),
      strTruthy s.embedding_api_key = false →
        openai_embed s texts =
          Except.error "OpenAI embeddings require SAFETY_KB_EMBEDDING_API_KEY") := by
  refine ⟨?_, ?_, ?_⟩
  · intro v
    constructor
    · intro h
      by_contra hmem
      simp [validate_provider, hmem] at h
    · intro hmem
      simp [validate_provider, hmem]
  · intro st s hmem
    simp only [allowed_providers, List.mem_cons] at hmem
    rcases hmem with h | h | h | h | h
    all_goals first
      | simp at h
      | (cases st <;> simp [get_embedding_provider, h])
  · intro s texts h
    simp [openai_embed, h]

/-- Witness for the amended C3 at concrete configurations. -/
theorem provider_failure_stages_witness :
    (∃ e, get_embedding_provider true custom_settings = Except.error e) ∧
    openai_embed missing_key_settings ["x"] =
      Except.error "OpenAI embeddings require SAFETY_KB_EMBEDDING_API_KEY" :=
  ⟨(provider_failure_stages.2.1 true custom_settings (by decide)).mpr
      (Or.inl rfl),
    provider_failure_stages.2.2 missing_key_settings ["x"] rfl⟩

/-! ## Arithmetic facts about `dotL`, `sumSq` and `pyNormOr1` -/

theorem dotL_nil_left (b : List ℝ) : dotL [] b = 0 := by
  simp [dotL]

theorem dotL_nil_right (a : List ℝ) : dotL a [] = 0 := by
  simp [dotL]

theorem dotL_cons (x y : ℝ) (xs ys : List ℝ) :
    dotL (x :: xs) (y :: ys) = x * y + dotL xs ys := by
  simp [dotL]

theorem sumSq_cons (x : ℝ) (xs : List ℝ) :
    sumSq (x :: xs) = x * x + sumSq xs := by
  simp [sumSq]

theorem dotL_comm : ∀ a b : List ℝ, dotL a b = dotL b a
  | [], b => by rw [dotL_nil_left, dotL_nil_right]
  | _ :: _, [] => by rw [dotL_nil_left, dotL_nil_right]
  | x :: xs, y :: ys => by
    rw [dotL_cons, dotL_cons, dotL_comm xs ys, mul_comm]

theorem dotL_zero_left : ∀ a b : List ℝ, (∀ x ∈ a, x = 0) → dotL a b = 0
  | [], b, _ => dotL_nil_left b
  | _ :: _, [], _ => dotL_nil_right _
  | x :: xs, y :: ys, h => by
    rw [dotL_cons, h x (by simp),
      dotL_zero_left xs ys (fun z hz => h z (by simp [hz]))]
    ring

theorem dotL_zero_right (a b : List ℝ) (h : ∀ x ∈ b, x = 0) :
    dotL a b = 0 := by
  rw [dotL_comm]
  exact dotL_zero_left b a h

theorem dotL_self : ∀ a : List ℝ, dotL a a = sumSq a
  | [] => by rw [dotL_nil_left]; simp [sumSq]
  | x :: xs => by rw [dotL_cons, sumSq_cons, dotL_self xs]

theorem dotL_smul_left (c : ℝ) :
    ∀ a b : List ℝ, dotL (a.map (fun x => c * x)) b = c * dotL a b
  | [], b => by simp [dotL]
  | _ :: _, [] => by simp [dotL]
  | x :: xs, y :: ys => by
    simp only [List.map_cons, dotL_cons, dotL_smul_left c xs ys]
    ring

theorem sumSq_smul (c : ℝ) :
    ∀ a : List ℝ, sumSq (a.map (fun x => c * x)) = c * c * sumSq a
  | [] => by simp [sumSq]
  | x :: xs => by
    simp only [List.map_cons, sumSq_cons, sumSq_smul c xs]
    ring

theorem sumSq_map_div (n : ℝ) :
    ∀ l : List ℝ, sumSq (l.map (fun v => v / n)) = sumSq l / (n * n)
  | [] => by simp [sumSq]
  | x :: xs => by
    simp only [List.map_cons, sumSq_cons, sumSq_map_div n xs]
    rw [div_mul_div_comm, add_div]

theorem sumSq_nonneg : ∀ v : List ℝ, 0 ≤ sumSq v
  | [] => by simp [sumSq]
  | x :: xs => by
    rw [sumSq_cons]
    exact add_nonneg (mul_self_nonneg x) (sumSq_nonneg xs)

theorem sumSq_eq_zero_forall :
    ∀ v : List ℝ, sumSq v = 0 → ∀ x ∈ v, x = 0
  | [], _, x, hx => by simp at hx
  | y :: ys, h, x, hx => by
    rw [sumSq_cons] at h
    have hy : y * y = 0 ∧ sumSq ys = 0 :=
      (add_eq_zero_iff_of_nonneg (mul_self_nonneg y) (sumSq_nonneg ys)).mp h
    rcases List.mem_cons.mp hx with rfl | hmem
    · exact mul_self_eq_zero.mp hy.1
    · exact sumSq_eq_zero_forall ys hy.2 x hmem

theorem sumSq_pos_of_mem :
    ∀ (v : List ℝ) (x : ℝ), x ∈ v → x ≠ 0 → 0 < sumSq v
  | [], x, hx, _ => by simp at hx
  | y :: ys, x, hx, hne => by
    rw [sumSq_cons]
    rcases List.mem_cons.mp hx with rfl | hmem
    · exact add_pos_of_pos_of_nonneg (mul_self_pos.mpr hne) (sumSq_nonneg ys)
    · exact add_pos_of_nonneg_of_pos (mul_self_nonneg y)
        (sumSq_pos_of_mem ys x hmem hne)

theorem pyNormOr1_pos (v : List ℝ) : 0 < pyNormOr1 v := by
  unfold pyNormOr1
  split
  · exact one_pos
  · rename_i h
    exact lt_of_le_of_ne (Real.sqrt_nonneg _) (Ne.symm h)

theorem pyNormOr1_of_sumSq_zero (v : List ℝ) (h : sumSq v = 0) :
    pyNormOr1 v = 1 := by
  unfold pyNormOr1
  rw [h, Real.sqrt_zero]
  simp

theorem pyNormOr1_of_sumSq_pos (v : List ℝ) (h : 0 < sumSq v) :
    pyNormOr1 v = Real.sqrt (sumSq v) := by
  unfold pyNormOr1
  rw [if_neg]
  exact ne_of_gt (Real.sqrt_pos.mpr h)

/-- C6: the scorer is total and never divides by zero: the guarded norm is
always positive, a zero sum of squares is treated as norm `1`, an all-zero
vector scores `0` against anything (of any length, so mismatched lengths
included), and empty input short-circuits to `0`. -/
theorem cosine_similarity_total :
    (∀ v : List ℝ, 0 < pyNormOr1 v) ∧
    (∀ v : List ℝ, sumSq v = 0 → pyNormOr1 v = 1) ∧
    (∀ (n : ℕ) (b : List ℝ),
      cosine_similarity (List.replicate n 0) b = 0 ∧
      cosine_similarity b (List.replicate n 0) = 0) ∧
    (∀ a b : List ℝ, a = [] ∨ b = [] → cosine_similarity a b = 0) := by
  refine ⟨pyNormOr1_pos, pyNormOr1_of_sumSq_zero, ?_, ?_⟩
  · intro n b
    constructor
    · unfold cosine_similarity
      split
      · rfl
      · rw [dotL_zero_left _ b (fun x hx => List.eq_of_mem_replicate hx),
          zero_div]
    · unfold cosine_similarity
      split
      · rfl
      · rw [dotL_zero_right b _ (fun x hx => List.eq_of_mem_replicate hx),
          zero_div]
  · intro a b h
    unfold cosine_similarity
    rw [if_pos h]

/-- Witness for C6: the all-zero one-dimensional vector has guarded norm
`1` and scores `0` against a mismatched-length vector. -/
theorem cosine_similarity_total_witness :
    pyNormOr1 [(0 : ℝ)] = 1 ∧
    cosine_similarity (List.replicate 1 (0 : ℝ)) [5, 7] = 0 :=
  ⟨cosine_similarity_total.2.1 [0] (by simp [sumSq]),
    (cosine_similarity_total.2.2.1 1 [5, 7]).1⟩

/-- C5: over exact arithmetic, cosine similarity is symmetric, invariant
under positive scaling of either argument, and equal to `1` on a pair of
identical nonzero vectors. -/
theorem cosine_similarity_algebra :
    (∀ a b : List ℝ, cosine_similarity a b = cosine_similarity b a) ∧
    (∀ (c : ℝ) (a b : List ℝ), 0 < c →
      cosine_similarity (a.map (fun x => c * x)) b = cosine_similarity a b) ∧
    (∀ (c : ℝ) (a b : List ℝ), 0 < c →
      cosine_similarity a (b.map (fun x => c * x)) = cosine_similarity a b) ∧
    (∀ a : List ℝ, (∃ x ∈ a, x ≠ 0) → cosine_similarity a a = 1) := by
  have hsymm : ∀ a b : List ℝ, cosine_similarity a b = cosine_similarity b a := by
    intro a b
    unfold cosine_similarity
    by_cases h : a = [] ∨ b = []
    · rw [if_pos h, if_pos (Or.symm h)]
    · rw [if_neg h, if_neg (fun hc => h (Or.symm hc)), dotL_comm, mul_comm]
  have hleft : ∀ (c : ℝ) (a b : List ℝ), 0 < c →
      cosine_similarity (a.map (fun x => c * x)) b = cosine_similarity a b := by
    intro c a b hc
    unfold cosine_similarity
    by_cases ha : a = []
    · subst ha
      simp
    by_cases hb : b = []
    · subst hb
      simp
    have hmap : ¬ (a.map (fun x => c * x) = [] ∨ b = []) := by
      simp [ha, hb]
    rw [if_neg hmap, if_neg (by simp [ha, hb])]
    rw [dotL_smul_left]
    by_cases hs : sumSq a = 0
    · rw [dotL_zero_left a b (sumSq_eq_zero_forall a hs), mul_zero, zero_div,
        zero_div]
    · have hpos : 0 < sumSq a := lt_of_le_of_ne (sumSq_nonneg a) (Ne.symm hs)
      have hposm : 0 < sumSq (a.map (fun x => c * x)) := by
        rw [sumSq_smul]
        positivity
      rw [pyNormOr1_of_sumSq_pos _ hpos, pyNormOr1_of_sumSq_pos _ hposm,
        sumSq_smul, Real.sqrt_mul (mul_self_nonneg c),
        Real.sqrt_mul_self hc.le, mul_assoc,
        mul_div_mul_left _ _ (ne_of_gt hc)]
  refine ⟨hsymm, hleft, ?_, ?_⟩
  · intro c a b hc
    rw [hsymm a (b.map (fun x => c * x)), hleft c b a hc, hsymm b a]
  · rintro a ⟨x, hx, hne⟩
    have hpos : 0 < sumSq a := sumSq_pos_of_mem a x hx hne
    have hne2 : ¬ (a = [] ∨ a = []) := by
      rintro (rfl | rfl) <;> simp at hx
    unfold cosine_similarity
    rw [if_neg hne2, dotL_self, pyNormOr1_of_sumSq_pos a hpos,
      Real.mul_self_sqrt hpos.le, div_self (ne_of_gt hpos)]

/-- Witness for C5: the similarity of the nonzero vector `[1]` with itself
is `1`. -/
theorem cosine_similarity_algebra_witness :
    cosine_similarity [(1 : ℝ)] [1] = 1 :=
  cosine_similarity_algebra.2.2.2 [1] ⟨1, by simp, one_ne_zero⟩

/-! ## Claim C9: the deterministic fake provider -/

/-- C9: the fake provider is a pure function of the per-text draw stream
(hence of the text): its vector has exactly `embedding_dim` components and,
whenever the draws are not all zero, exact unit Euclidean norm; `embed`
returns one vector per input text in order; and any provider whose draws
for a text agree componentwise produces the identical vector. -/
theorem fake_provider_deterministic_unit (rng : String → ℕ → ℝ) (dim : ℕ)
    (texts : List String) (t : String)
    (hnz : ∃ i, i < dim ∧ rng t i ≠ 0) :
    (∀ u : String, (fake_vector rng dim u).length = dim) ∧
    sumSq (fake_vector rng dim t) = 1 ∧
    fake_embed rng dim texts = texts.map (fake_vector rng dim) ∧
    (fake_embed rng dim texts).length = texts.length ∧
    (∀ (rng2 : String → ℕ → ℝ) (t2 : String),
      (∀ i, i < dim → rng t i = rng2 t2 i) →
      fake_vector rng dim t = fake_vector rng2 dim t2) := by
  refine ⟨?_, ?_, rfl, by simp [fake_embed], ?_⟩
  · intro u
    simp [fake_vector]
  · obtain ⟨i, hi, hne⟩ := hnz
    have hmem : rng t i ∈ (List.range dim).map (rng t) :=
      List.mem_map.mpr ⟨i, List.mem_range.mpr hi, rfl⟩
    have hpos : 0 < sumSq ((List.range dim).map (rng t)) :=
      sumSq_pos_of_mem _ _ hmem hne
    show sumSq (((List.range dim).map (rng t)).map
      (fun v => v / pyNormOr1 ((List.range dim).map (rng t)))) = 1
    rw [sumSq_map_div, pyNormOr1_of_sumSq_pos _ hpos,
      Real.mul_self_sqrt hpos.le, div_self (ne_of_gt hpos)]
  · intro rng2 t2 hagree
    have hv : (List.range dim).map (rng t) = (List.range dim).map (rng2 t2) :=
      List.map_congr_left (fun i hi => hagree i (List.mem_range.mp hi))
    show ((List.range dim).map (rng t)).map _ =
      ((List.range dim).map (rng2 t2)).map _
    rw [hv]

/-- Witness for C9 with the constant draw stream `1` in dimension `2`. -/
theorem fake_provider_deterministic_unit_witness :
    sumSq (fake_vector (fun _ _ => (1 : ℝ)) 2 "seed") = 1 ∧
    (fake_vector (fun _ _ => (1 : ℝ)) 2 "seed").length = 2 :=
  ⟨(fake_provider_deterministic_unit (fun _ _ => (1 : ℝ)) 2 [] "seed"
      ⟨0, by norm_num, one_ne_zero⟩).2.1,
    (fake_provider_deterministic_unit (fun _ _ => (1 : ℝ)) 2 [] "seed"
      ⟨0, by norm_num, one_ne_zero⟩).1 "seed"⟩

/-! ## Claim C7: blank documents produce no chunks and are skipped -/

/-- A string whose characters are all whitespace (this includes `""`). -/
def isWsOnly (s : String) : Bool := s.data.all wsChar

theorem stripHtmlAux_no_lt :
    ∀ (fuel : ℕ) (l : List Char), l.length ≤ fuel →
      (∀ c ∈ l, c ≠ '<') → stripHtmlAux fuel l = l := by
  intro fuel
  induction fuel with
  | zero =>
    intro l hlen _
    rw [List.length_eq_zero.mp (Nat.le_zero.mp hlen)]
    rfl
  | succ fuel ih =>
    intro l hlen hno
    cases l with
    | nil => rfl
    | cons c cs =>
      have hc : ¬ c = '<' := hno c (by simp)
      simp only [stripHtmlAux, if_neg hc]
      rw [ih cs (by simpa using hlen) (fun x hx => hno x (by simp [hx]))]

theorem strip_html_no_lt (s : String) (h : ∀ c ∈ s.data, c ≠ '<') :
    strip_html s = s := by
  unfold strip_html
  rw [stripHtmlAux_no_lt _ _ le_rfl h]

theorem collapseWSAux_all_ws :
    ∀ l : List Char, l.all wsChar = true → collapseWSAux true l = []
  | [], _ => rfl
  | c :: cs, h => by
    rw [List.all_cons, Bool.and_eq_true] at h
    simp only [collapseWSAux, if_pos h.1, if_true]
    exact collapseWSAux_all_ws cs h.2

theorem normalize_whitespace_all_ws (s : String) (h : s.data.all wsChar) :
    normalize_whitespace s = "" := by
  unfold normalize_whitespace
  cases hd : s.data with
  | nil => rfl
  | cons c cs =>
    rw [hd] at h
    rw [List.all_cons, Bool.and_eq_true] at h
    simp only [collapseWSAux, if_pos h.1]
    rw [collapseWSAux_all_ws cs h.2]
    rfl

theorem wsChar_ne_lt (c : Char) (h : wsChar c = true) : c ≠ '<' := by
  intro hc
  rw [hc] at h
  simp [wsChar] at h

/-- A blank text cleans to the empty string. -/
theorem clean_text_all_ws (U : String → String) (t : String)
    (hU : U t = t) (hws : isWsOnly t = true) : clean_text U t = "" := by
  unfold clean_text
  rw [hU, strip_html_no_lt t (fun c hc => wsChar_ne_lt c (by
    have := List.all_eq_true.mp hws c hc
    simpa using this))]
  exact normalize_whitespace_all_ws t hws

/-- `chunk_text` on the empty string yields no chunks. -/
theorem chunk_text_empty (settings : Settings) (a b : Option ℕ) :
    chunk_text settings "" a b = [] := rfl

/-- Updating `added_at` does not change the chunks of a document. -/
theorem build_chunks_added_at (U : String → String) (settings : Settings)
    (d : Document) (v : Option PyDateTime) :
    build_chunks U settings { d with added_at := v } = build_chunks U settings d := rfl

/-- A document with absent, empty or whitespace-only text yields no
chunks. -/
theorem build_chunks_blank (U : String → String) (settings : Settings)
    (d : Document) (hU : ∀ s : String, isWsOnly s = true → U s = s)
    (hd : d.text = none ∨ ∃ t, d.text = some t ∧ isWsOnly t = true) :
    build_chunks U settings d = [] := by
  rcases hd with hnone | ⟨t, ht, hws⟩
  · unfold build_chunks
    rw [hnone]
  · unfold build_chunks
    rw [ht]
    dsimp only
    by_cases ht0 : t = ""
    · rw [if_pos ht0]
    · rw [if_neg ht0, clean_text_all_ws U t (hU t hws) hws, chunk_text_empty]
      rfl

/-- C7: a document whose text is absent, empty or whitespace-only yields
zero chunks, and `ingest_documents` neither stores it nor counts it: the
run over any document list containing it equals the run with it removed. -/
theorem blank_documents_skipped (U : String → String) (E : String → List ℚ)
    (now : PyDateTime) (settings : Settings) (d : Document)
    (hU : ∀ s : String, isWsOnly s = true → U s = s)
    (hd : d.text = none ∨ ∃ t, d.text = some t ∧ isWsOnly t = true) :
    build_chunks U settings d = [] ∧
    ∀ pre post : List Document,
      ingest_documents U E now settings (pre ++ d :: post) =
        ingest_documents U E now settings (pre ++ post) := by
  have hb : build_chunks U settings d = [] :=
    build_chunks_blank U settings d hU hd
  have hstep : ∀ acc, ingest_step U E now settings acc d = acc := by
    intro acc
    unfold ingest_step
    by_cases hadd : d.added_at = none
    · rw [if_pos hadd]
      simp only [build_chunks_added_at, hb]
      exact if_pos trivial
    · rw [if_neg hadd]
      simp only [hb]
      exact if_pos trivial
  refine ⟨hb, ?_⟩
  intro pre post
  unfold ingest_documents
  rw [List.foldl_append, List.foldl_append, List.foldl_cons, hstep]

/-- Witness for C7: ingesting a single whitespace-only document equals
ingesting nothing. -/
theorem blank_documents_skipped_witness :
    build_chunks (fun s => s) default_settings
      { id := "blank", source := "web", source_id := "s", title := "B",
        text := some " " } = [] ∧
    ingest_documents (fun s => s) (fun _ => []) ⟨2026, 1, 1, 0, 0, 0⟩
        default_settings
        [{ id := "blank", source := "web", source_id := "s", title := "B",
           text := some " " }] =
      ingest_documents (fun s => s) (fun _ => []) ⟨2026, 1, 1, 0, 0, 0⟩
        default_settings [] := by
  have h := blank_documents_skipped (fun s => s) (fun _ => [])
    ⟨2026, 1, 1, 0, 0, 0⟩ default_settings
    { id := "blank", source := "web", source_id := "s", title := "B",
      text := some " " }
    (fun s _ => rfl) (Or.inr ⟨" ", rfl, by decide⟩)
  exact ⟨h.1, h.2 [] []⟩

/-! ## Claim C8: chunk ids and indices -/

/-- C8: the `i`-th chunk of a document has `chunk_index` exactly `i`
(indices are `0..n-1` in order), its id is exactly `{doc_id}_{i}`, its
`doc_id` is the parent's id, and its topic and risk-area labels are the
parent's verbatim. -/
theorem build_chunks_indexing (U : String → String) (settings : Settings)
    (d : Document) (i : ℕ) (h : i < (build_chunks U settings d).length) :
    ∃ c : Chunk, (build_chunks U settings d)[i]? = some c ∧
      c.chunk_index = i ∧
      c.id = d.id ++ "_" ++ toString i ∧
      c.doc_id = d.id ∧
      c.topics = d.topics ∧
      c.risk_areas = d.risk_areas := by
  rcases htext : d.text with _ | t
  · unfold build_chunks at h
    rw [htext] at h
    simp at h
  · unfold build_chunks at h ⊢
    rw [htext] at h ⊢
    dsimp only at h ⊢
    by_cases ht0 : t = ""
    · rw [if_pos ht0] at h
      simp at h
    · rw [if_neg ht0] at h ⊢
      set bc : List String := chunk_text settings (clean_text U t)
        (some settings.chunk_size) (some settings.chunk_overlap) with hbc
      have hbl : i < bc.length := by simpa using h
      refine ⟨⟨d.id ++ "_" ++ toString i, d.id, i, bc.get ⟨i, hbl⟩, none,
          d.topics, d.risk_areas, d.metadata ++ [("source", d.source)]⟩,
        ?_, rfl, rfl, rfl, rfl, rfl⟩
      rw [List.getElem?_eq_getElem (by simpa using h), List.getElem_map,
        List.getElem_enum]
      rfl

/-- Witness for C8 on a three-word document chunked with `S = 2`,
`O = 1`. -/
theorem build_chunks_indexing_witness :
    ∃ c : Chunk,
      (build_chunks (fun s => s) { chunk_size := 2, chunk_overlap := 1 }
        { id := "doc", source := "web", source_id := "s", title := "W",
          text := some "alpha beta gamma" })[1]? = some c ∧
      c.chunk_index = 1 ∧
      c.id = "doc" ++ "_" ++ toString 1 ∧
      c.doc_id = "doc" ∧
      c.topics = [] ∧
      c.risk_areas = [] :=
  build_chunks_indexing (fun s => s) { chunk_size := 2, chunk_overlap := 1 }
    { id := "doc", source := "web", source_id := "s", title := "W",
      text := some "alpha beta gamma" } 1 (by decide)

end SafetyKB
